import Mathlib

/-!
# Verification of the Rehearsal real-time audio/session pipeline

Shallow embedding, in Lean 4, of the audio codec, playback scheduler,
transcript reconciler and conversation-lifecycle logic of the Rehearsal
application (source files `src/types.ts`, the service module concatenated to
it, and the main application component), together with theorems settling the
specified properties.

Conventions of the embedding:
* JS numbers used as audio clock values and sample values are modelled as `ℚ`
  (exact arithmetic; binary floating point rounding of individual products is
  not modelled).
* JS 32-bit/16-bit integer conversions are modelled on `ℤ` with explicit
  truncation and `% 2^16` wrapping.
* Mutable `useRef`/`useState` cells are gathered into explicit state records;
  event handlers become state-transition functions; asynchronous remote calls
  become explicit outcome parameters (`Except`).
-/

namespace Rehearsal

/-! ## Transcript data model (src/types.ts, `Transcript` interface)

`Transcript` entries carry a speaker (`'user' | 'npc'`), accumulated text, an
`isFinal` flag and an optional `imageUrl`. -/

inductive Speaker where
  | user
  | npc
deriving DecidableEq, Repr

structure TranscriptEntry where
  speaker : Speaker
  text : String
  isFinal : Bool
  imageUrl : Option String := none
deriving DecidableEq, Repr

/-- The `onTranscriptUpdate` callback of the main component: if the last entry
has the same speaker as the incoming fragment and is not yet final, the
fragment's text is concatenated into it in place; otherwise the fragment is
pushed as a new entry. -/
def onTranscriptUpdate (prev : List TranscriptEntry) (newTranscript : TranscriptEntry) :
    List TranscriptEntry :=
  match prev.getLast? with
  | some lastEntry =>
      if lastEntry.speaker = newTranscript.speaker ∧ lastEntry.isFinal = false then
        prev.dropLast ++ [{ lastEntry with text := lastEntry.text ++ newTranscript.text }]
      else
        prev ++ [newTranscript]
  | none => prev ++ [newTranscript]

/-- The `onTurnComplete` callback: `prev.map (t => ({ ...t, isFinal: true }))`. -/
def onTurnComplete (prev : List TranscriptEntry) : List TranscriptEntry :=
  prev.map fun t => { t with isFinal := true }

/-- An incremental speech-to-text fragment as the live-session adapter delivers
it to `onTranscriptUpdate`: a bare `{speaker, text, isFinal: false}` record. -/
def mkFragment (s : Speaker) (t : String) : TranscriptEntry :=
  { speaker := s, text := t, isFinal := false, imageUrl := none }

/-- Applying a run of incremental fragments of one speaker to a transcript. -/
def applyFragments (prev : List TranscriptEntry) (s : Speaker) (texts : List String) :
    List TranscriptEntry :=
  texts.foldl (fun tr t => onTranscriptUpdate tr (mkFragment s t)) prev

/-- Concatenation of fragment texts in arrival order. -/
def concatTexts : List String → String
  | [] => ""
  | t :: ts => t ++ concatTexts ts

/-! ### Transcript reconciler lemmas -/

/-- Pushing on an open tail: as long as the transcript ends in a non-final
entry of speaker `s`, every further fragment of `s` is merged into that entry. -/
theorem applyFragments_open_tail (s : Speaker) :
    ∀ (texts : List String) (front : List TranscriptEntry) (e : TranscriptEntry),
      e.speaker = s → e.isFinal = false →
      applyFragments (front ++ [e]) s texts
        = front ++ [{ e with text := e.text ++ concatTexts texts }] := by
  intro texts
  induction texts with
  | nil =>
      intro front e hs hf
      simp [applyFragments, concatTexts]
  | cons t ts ih =>
      intro front e hs hf
      have hstep : onTranscriptUpdate (front ++ [e]) (mkFragment s t)
          = front ++ [{ e with text := e.text ++ t }] := by
        simp [onTranscriptUpdate, mkFragment, List.getLast?_concat, List.dropLast_concat, hs, hf]
      have hfold : applyFragments (front ++ [e]) s (t :: ts)
          = applyFragments (onTranscriptUpdate (front ++ [e]) (mkFragment s t)) s ts := rfl
      rw [hfold, hstep, ih front { e with text := e.text ++ t } hs hf]
      simp [concatTexts, String.append_assoc]

/-- C4: a same-speaker run of partial fragments, arriving while the last entry
is absent, final, or of another speaker, produces exactly one new non-final
entry holding the concatenation of the fragment texts in arrival order; and a
fragment arriving on a final or other-speaker last entry always starts a new
entry. -/
theorem transcript_fragment_accumulation :
    (∀ (prev : List TranscriptEntry) (s : Speaker) (t0 : String) (ts : List String),
        (∀ e, prev.getLast? = some e → e.isFinal = true ∨ e.speaker ≠ s) →
        applyFragments prev s (t0 :: ts)
          = prev ++ [{ speaker := s, text := t0 ++ concatTexts ts,
                       isFinal := false, imageUrl := none }]) ∧
    (∀ (prev : List TranscriptEntry) (f : TranscriptEntry),
        (∀ e, prev.getLast? = some e → e.isFinal = true ∨ e.speaker ≠ f.speaker) →
        onTranscriptUpdate prev f = prev ++ [f]) := by
  have hpush : ∀ (prev : List TranscriptEntry) (f : TranscriptEntry),
      (∀ e, prev.getLast? = some e → e.isFinal = true ∨ e.speaker ≠ f.speaker) →
      onTranscriptUpdate prev f = prev ++ [f] := by
    intro prev f h
    unfold onTranscriptUpdate
    cases hl : prev.getLast? with
    | none => rfl
    | some e =>
        rcases h e hl with hfin | hsp
        · simp [hfin]
        · simp [hsp]
  refine ⟨?_, hpush⟩
  intro prev s t0 ts h
  have h0 : applyFragments prev s (t0 :: ts)
      = applyFragments (prev ++ [mkFragment s t0]) s ts := by
    have := hpush prev (mkFragment s t0) (by simpa [mkFragment] using h)
    simp [applyFragments, this]
  rw [h0, applyFragments_open_tail s ts prev (mkFragment s t0) rfl rfl]
  simp [mkFragment]

/-- C4 witness: one same-speaker run of two fragments after a final entry of
the other speaker. -/
theorem transcript_fragment_accumulation_witness :
    applyFragments [⟨Speaker.npc, "hola", true, none⟩] Speaker.user ("bon" :: ["jour"])
      = [⟨Speaker.npc, "hola", true, none⟩, ⟨Speaker.user, "bonjour", false, none⟩] := by
  have h := transcript_fragment_accumulation.1
    [⟨Speaker.npc, "hola", true, none⟩] Speaker.user "bon" ["jour"]
    (by intro e he; simp at he; subst he; left; rfl)
  rw [h]
  rfl

/-- C5: the turn-complete handler marks every entry of the transcript final,
retroactively over the whole transcript, and is idempotent. -/
theorem onTurnComplete_finalizes_all_and_idempotent (tr : List TranscriptEntry) :
    (∀ e ∈ onTurnComplete tr, e.isFinal = true) ∧
      onTurnComplete (onTurnComplete tr) = onTurnComplete tr := by
  constructor
  · intro e he
    simp only [onTurnComplete, List.mem_map] at he
    obtain ⟨t, _, rfl⟩ := he
    rfl
  · simp [onTurnComplete, List.map_map, Function.comp]

/-- C5 witness: a concrete two-entry transcript, one entry still open. -/
theorem onTurnComplete_finalizes_witness :
    (∀ e ∈ onTurnComplete
        [⟨Speaker.npc, "hi", true, none⟩, ⟨Speaker.user, "yo", false, none⟩],
        e.isFinal = true) ∧
      onTurnComplete (onTurnComplete
          [⟨Speaker.npc, "hi", true, none⟩, ⟨Speaker.user, "yo", false, none⟩])
        = onTurnComplete
            [⟨Speaker.npc, "hi", true, none⟩, ⟨Speaker.user, "yo", false, none⟩] :=
  onTurnComplete_finalizes_all_and_idempotent
    [⟨Speaker.npc, "hi", true, none⟩, ⟨Speaker.user, "yo", false, none⟩]

/-- C9: the turn-complete handler changes nothing but the `isFinal` flags: the
number of entries and every entry's speaker, text and imageUrl are preserved. -/
theorem onTurnComplete_frame (tr : List TranscriptEntry) :
    (onTurnComplete tr).length = tr.length ∧
      ∀ i : ℕ,
        ((onTurnComplete tr)[i]?).map TranscriptEntry.speaker
            = (tr[i]?).map TranscriptEntry.speaker ∧
          ((onTurnComplete tr)[i]?).map TranscriptEntry.text
            = (tr[i]?).map TranscriptEntry.text ∧
          ((onTurnComplete tr)[i]?).map TranscriptEntry.imageUrl
            = (tr[i]?).map TranscriptEntry.imageUrl := by
  refine ⟨by simp [onTurnComplete], fun i => ?_⟩
  simp only [onTurnComplete, List.getElem?_map]
  cases tr[i]? <;> simp

/-! ## Audio / session mutable state

The main component holds its audio and session resources in `useRef` cells
(`liveSessionRef`, `localStreamRef`, `scriptProcessorRef`,
`mediaStreamSourceRef`, `inputAudioContextRef`, `outputAudioContextRef`,
`nextStartTimeRef`, `audioSourcesRef`) and two `useState` flags
(`isRecording`, `isNpcSpeaking`).  Resource refs are modelled by presence
booleans; the set of live `AudioBufferSourceNode`s by a `Finset ℕ` of token
ids handed out by a counter. -/

structure AudioState where
  liveSession : Bool
  localStream : Bool
  scriptProcessor : Bool
  mediaStreamSource : Bool
  inputAudioContext : Bool
  outputAudioContext : Bool
  audioSources : Finset ℕ
  nextStartTime : ℚ
  nextSourceId : ℕ
  isRecording : Bool
  isNpcSpeaking : Bool
deriving DecidableEq

/-- The initial render: all refs null, `nextStartTimeRef` 0, both flags false. -/
def initialAudioState : AudioState :=
  { liveSession := false, localStream := false, scriptProcessor := false,
    mediaStreamSource := false, inputAudioContext := false,
    outputAudioContext := false, audioSources := ∅, nextStartTime := 0,
    nextSourceId := 0, isRecording := false, isNpcSpeaking := false }

/-- The start time `playAudioChunk` schedules the incoming chunk at:
`Math.max(nextStartTimeRef.current, audioContext.currentTime)`. -/
def chunkStart (st : AudioState) (deviceNow : ℚ) : ℚ :=
  max st.nextStartTime deviceNow

/-- A successful `playAudioChunk(base64Audio)` with a chunk of the given
decoded duration, observed at device clock `deviceNow`: schedules a fresh
source at `chunkStart`, registers it in `audioSourcesRef`, and advances
`nextStartTimeRef` by the chunk duration. -/
def playAudioChunk (st : AudioState) (duration deviceNow : ℚ) : AudioState :=
  { st with
      audioSources := insert st.nextSourceId st.audioSources,
      nextStartTime := chunkStart st deviceNow + duration,
      nextSourceId := st.nextSourceId + 1 }

/-- The `onNpcAudio` session callback: sets `isNpcSpeaking` (the
`if (!isNpcSpeaking) setIsNpcSpeaking(true)` guard has this net effect) and
enqueues the chunk through `playAudioChunk`. -/
def onNpcAudio (st : AudioState) (duration deviceNow : ℚ) : AudioState :=
  playAudioChunk { st with isNpcSpeaking := true } duration deviceNow

/-- A source's `onended` callback: removes it from `audioSourcesRef` and, when
the set becomes empty, clears `isNpcSpeaking`. -/
def onSourceEnded (st : AudioState) (source : ℕ) : AudioState :=
  let sources := st.audioSources.erase source
  { st with
      audioSources := sources,
      isNpcSpeaking := if sources = ∅ then false else st.isNpcSpeaking }

/-- The playback event alphabet of C1: a successfully enqueued NPC audio chunk
and a natural completion of a scheduled source. -/
inductive PlaybackEvent where
  | npcAudio (duration deviceNow : ℚ)
  | sourceEnded (source : ℕ)

def playbackStep (st : AudioState) : PlaybackEvent → AudioState
  | .npcAudio d now => onNpcAudio st d now
  | .sourceEnded s => onSourceEnded st s

def playbackRun (st : AudioState) (evs : List PlaybackEvent) : AudioState :=
  evs.foldl playbackStep st

/-- Cleanup `cleanupAudioAndSession`: closes the session, stops all microphone tracks,
disconnects the processor nodes, closes both audio contexts, stops every
active source and clears `audioSourcesRef`, and resets both flags.  Each
release is individually guarded by try/catch in the source; the model is the
(total) net state effect.  Note that `nextStartTimeRef` is NOT touched. -/
def cleanupAudioAndSession (st : AudioState) : AudioState :=
  { liveSession := false, localStream := false, scriptProcessor := false,
    mediaStreamSource := false, inputAudioContext := false,
    outputAudioContext := false, audioSources := ∅,
    nextStartTime := st.nextStartTime, nextSourceId := st.nextSourceId,
    isRecording := false, isNpcSpeaking := false }

/-- The audio-resource acquisitions of `handleBeginConversation` (stream,
input context, stream source, processor, output context) together with its
`nextStartTimeRef.current = 0` reset. -/
def setupConversationAudio (st : AudioState) : AudioState :=
  { st with
      localStream := true, inputAudioContext := true,
      mediaStreamSource := true, scriptProcessor := true,
      outputAudioContext := true, nextStartTime := 0 }

/-! ### Liveness-flag invariant (C1) -/

/-- The C1 invariant: `isNpcSpeaking` is set exactly when some source is live. -/
def speakingInvariant (st : AudioState) : Prop :=
  st.isNpcSpeaking = true ↔ st.audioSources ≠ ∅

theorem playbackStep_preserves_speakingInvariant (st : AudioState)
    (hinv : speakingInvariant st) (ev : PlaybackEvent) :
    speakingInvariant (playbackStep st ev) := by
  cases ev with
  | npcAudio d now =>
      simp [speakingInvariant, playbackStep, onNpcAudio, playAudioChunk,
        Finset.insert_ne_empty]
  | sourceEnded s =>
      simp only [speakingInvariant, playbackStep, onSourceEnded]
      by_cases h : st.audioSources.erase s = ∅
      · simp [h]
      · simp only [h, if_neg]
        have hne : st.audioSources ≠ ∅ := by
          intro habs
          exact h (by simp [habs])
        simpa [h] using hinv.mpr hne

theorem playbackRun_preserves_speakingInvariant (evs : List PlaybackEvent) :
    ∀ st : AudioState, speakingInvariant st → speakingInvariant (playbackRun st evs) := by
  induction evs with
  | nil => intro st h; exact h
  | cons ev evs ih =>
      intro st h
      exact ih _ (playbackStep_preserves_speakingInvariant st h ev)

/-- C1: over every sequence of enqueue (`playAudioChunk` via `onNpcAudio`) and
completion (`onended`) events from the initial state, `isNpcSpeaking` is true
iff the active-source set is non-empty; with zero chunks enqueued the flag is
false. -/
theorem isNpcSpeaking_iff_active_sources :
    (playbackRun initialAudioState []).isNpcSpeaking = false ∧
      ∀ evs : List PlaybackEvent,
        (playbackRun initialAudioState evs).isNpcSpeaking = true
          ↔ (playbackRun initialAudioState evs).audioSources ≠ ∅ := by
  refine ⟨rfl, fun evs => ?_⟩
  exact playbackRun_preserves_speakingInvariant evs initialAudioState
    (by simp [speakingInvariant, initialAudioState])

/-! ### Teardown of the playback scheduler (C2) -/

/-- C2 counterexample: `cleanupAudioAndSession` leaves `nextStartTimeRef`
untouched, so from a state with `nextStartTime = 5` the claimed reset to 0
does not happen. -/
theorem cleanup_does_not_reset_nextStartTime :
    (cleanupAudioAndSession
        { initialAudioState with nextStartTime := 5 }).nextStartTime ≠ 0 := by
  simp [cleanupAudioAndSession, initialAudioState]

/-- C2 (amended): `cleanupAudioAndSession` halts and clears every active
source, clears the liveness flag, is idempotent under any number of repeated
calls and tolerates zero active sources; it preserves `nextStartTime`, which
is instead reset to 0 by the audio setup of `handleBeginConversation`. -/
theorem cleanup_properties (st : AudioState) :
    (cleanupAudioAndSession st).audioSources = ∅ ∧
      (cleanupAudioAndSession st).isNpcSpeaking = false ∧
      (cleanupAudioAndSession st).nextStartTime = st.nextStartTime ∧
      (∀ n : ℕ, cleanupAudioAndSession^[n + 1] st = cleanupAudioAndSession st) ∧
      (setupConversationAudio st).nextStartTime = 0 := by
  refine ⟨rfl, rfl, rfl, ?_, rfl⟩
  intro n
  induction n with
  | zero => rfl
  | succ m ih =>
      rw [Function.iterate_succ_apply', ih]
      rfl

/-! ### Gapless sequential scheduling (C3) -/

/-- The start times `playAudioChunk` assigns to a sequence of successfully
enqueued chunks, each given as (decoded duration, device clock at enqueue). -/
def scheduledStarts (st : AudioState) : List (ℚ × ℚ) → List ℚ
  | [] => []
  | (d, now) :: rest =>
      chunkStart st now :: scheduledStarts (playAudioChunk st d now) rest

theorem scheduledStarts_head_ge (st : AudioState) (chunks : List (ℚ × ℚ)) (s : ℚ)
    (h : (scheduledStarts st chunks)[0]? = some s) : st.nextStartTime ≤ s := by
  cases chunks with
  | nil => simp [scheduledStarts] at h
  | cons c rest =>
      obtain ⟨d, now⟩ := c
      simp only [scheduledStarts, List.getElem?_cons_zero, Option.some.injEq] at h
      subst h
      exact le_max_left _ _

theorem scheduledStarts_chain (chunks : List (ℚ × ℚ)) :
    ∀ (st : AudioState) (i : ℕ) (s₁ s₂ d : ℚ),
      (scheduledStarts st chunks)[i]? = some s₁ →
      (scheduledStarts st chunks)[i + 1]? = some s₂ →
      (chunks.map Prod.fst)[i]? = some d →
      s₁ + d ≤ s₂ := by
  induction chunks with
  | nil => intro st i s₁ s₂ d h₁ _ _; simp [scheduledStarts] at h₁
  | cons c rest ih =>
      obtain ⟨d₀, now₀⟩ := c
      intro st i s₁ s₂ d h₁ h₂ hd
      cases i with
      | zero =>
          simp only [scheduledStarts, List.getElem?_cons_zero, Option.some.injEq] at h₁
          simp only [scheduledStarts, List.getElem?_cons_succ] at h₂
          simp only [List.map_cons, List.getElem?_cons_zero, Option.some.injEq] at hd
          have := scheduledStarts_head_ge (playAudioChunk st d₀ now₀) rest s₂ h₂
          rw [← h₁, ← hd]
          simpa [playAudioChunk] using this
      | succ j =>
          simp only [scheduledStarts, List.getElem?_cons_succ] at h₁ h₂
          simp only [List.map_cons, List.getElem?_cons_succ] at hd
          exact ih (playAudioChunk st d₀ now₀) j s₁ s₂ d h₁ h₂ hd

theorem scheduledStarts_length (st : AudioState) (chunks : List (ℚ × ℚ)) :
    (scheduledStarts st chunks).length = chunks.length := by
  induction chunks generalizing st with
  | nil => rfl
  | cons c rest ih =>
      obtain ⟨d, now⟩ := c
      simp [scheduledStarts, ih]

/-- C3: for a sequence of successfully enqueued chunks with non-negative
durations, each chunk's scheduled start is at least the previous chunk's
scheduled start plus the previous duration, and scheduled starts are
non-decreasing — chunks play in arrival order and never overlap. -/
theorem scheduled_starts_monotone (st : AudioState) (chunks : List (ℚ × ℚ))
    (hd : ∀ c ∈ chunks, 0 ≤ c.1) :
    (∀ (i : ℕ) (s₁ s₂ d : ℚ),
        (scheduledStarts st chunks)[i]? = some s₁ →
        (scheduledStarts st chunks)[i + 1]? = some s₂ →
        (chunks.map Prod.fst)[i]? = some d →
        s₁ + d ≤ s₂) ∧
      ∀ (i : ℕ) (s₁ s₂ : ℚ),
        (scheduledStarts st chunks)[i]? = some s₁ →
        (scheduledStarts st chunks)[i + 1]? = some s₂ →
        s₁ ≤ s₂ := by
  refine ⟨fun i s₁ s₂ d h₁ h₂ hd' => scheduledStarts_chain chunks st i s₁ s₂ d h₁ h₂ hd',
    fun i s₁ s₂ h₁ h₂ => ?_⟩
  have hlen : i + 1 < (scheduledStarts st chunks).length :=
    (List.getElem?_eq_some_iff.mp h₂).choose
  have hmi : i < (chunks.map Prod.fst).length := by
    rw [scheduledStarts_length] at hlen
    simp only [List.length_map]
    omega
  have hdi : (chunks.map Prod.fst)[i]? = some ((chunks.map Prod.fst).get ⟨i, hmi⟩) :=
    List.getElem?_eq_some_iff.mpr ⟨hmi, rfl⟩
  have hmem : (chunks.map Prod.fst).get ⟨i, hmi⟩ ∈ chunks.map Prod.fst :=
    List.get_mem _ _ _
  have hd0 : 0 ≤ (chunks.map Prod.fst).get ⟨i, hmi⟩ := by
    rcases List.mem_map.mp hmem with ⟨c, hc, hce⟩
    rw [← hce]
    exact hd c hc
  have hchain := scheduledStarts_chain chunks st i s₁ s₂ _ h₁ h₂ hdi
  linarith

/-- C3 witness: two chunks of durations 1 and 2 enqueued at device time 0 from
the initial state start at 0 and 1. -/
theorem scheduled_starts_monotone_witness :
    (scheduledStarts initialAudioState [((1 : ℚ), (0 : ℚ)), ((2 : ℚ), (0 : ℚ))])[0]?
        = some 0 ∧
      (scheduledStarts initialAudioState [((1 : ℚ), (0 : ℚ)), ((2 : ℚ), (0 : ℚ))])[1]?
        = some 1 ∧
      (0 : ℚ) + 1 ≤ 1 ∧ (0 : ℚ) ≤ 1 := by
  have h₀ : (scheduledStarts initialAudioState
      [((1 : ℚ), (0 : ℚ)), ((2 : ℚ), (0 : ℚ))])[0]? = some 0 := by
    simp [scheduledStarts, chunkStart, initialAudioState]
  have h₁ : (scheduledStarts initialAudioState
      [((1 : ℚ), (0 : ℚ)), ((2 : ℚ), (0 : ℚ))])[1]? = some 1 := by
    simp [scheduledStarts, chunkStart, playAudioChunk, initialAudioState]
  have hmono := scheduled_starts_monotone initialAudioState
    [((1 : ℚ), (0 : ℚ)), ((2 : ℚ), (0 : ℚ))]
    (by intro c hc; simp at hc; rcases hc with h | h <;> simp [h])
  exact ⟨h₀, h₁, hmono.1 0 0 1 1 h₀ h₁ (by simp), hmono.2 0 0 1 h₀ h₁⟩

/-! ## Conversation lifecycle data model (src/types.ts)

`ConversationStatus`, `Scenario`, `ConversationResult` and `StudyCardHint`
are embedded field-for-field; enumerated string unions become inductives.
`local` being a Lean keyword, the `'local'` accent value is spelled `loc`. -/

inductive ConversationStatus where
  | idle
  | generating
  | briefing
  | ready
  | active
  | summarizing
  | pausedForFeedback
  | error
deriving DecidableEq, Repr

inductive Gender where
  | male
  | female
  | neutral
deriving DecidableEq, Repr

inductive Level where
  | low
  | medium
  | high
deriving DecidableEq, Repr

inductive Accent where
  | loc
  | neutral
  | heavy
deriving DecidableEq, Repr

structure NpcLanguages where
  primary : String
  secondary : Option String
deriving DecidableEq, Repr

structure NpcProfile where
  name : String
  gender : Gender
  voice : String
  languages : NpcLanguages
  fluencyPrimary : Level
  fluencySecondary : Option Level
  patience : Level
  helpfulness : Level
  accent : Accent
  quirk : String
deriving DecidableEq, Repr

inductive ConversationStarter where
  | user
  | npc
deriving DecidableEq, Repr

structure Scenario where
  locationName : String
  locationType : String
  task : String
  npcProfile : NpcProfile
  sceneDescription : String
  conversationStarter : ConversationStarter
  openingLine : Option String
deriving DecidableEq, Repr

structure ConversationResult where
  summary : String
  tips : List String
  taskComplete : Bool
  suggestedContinuation : Option String
  suggestedContinuationExplanation : Option String
deriving DecidableEq, Repr

structure StudyCardEntry where
  term : String
  translation : String
deriving DecidableEq, Repr

structure StudyCardHint where
  vocabulary : List StudyCardEntry
  phrases : List StudyCardEntry
deriving DecidableEq, Repr

/-- The conversation-relevant `useState` cells of the main component together
with the audio/session refs. -/
structure AppState where
  status : ConversationStatus
  scenario : Option Scenario
  transcript : List TranscriptEntry
  result : Option ConversationResult
  errorMsg : Option String
  studyCardHint : Option StudyCardHint
  audio : AudioState
deriving DecidableEq

/-- Handler `handleCloseRehearsal`: cleanup, hide Street View (outside this model),
status back to Idle, scenario/transcript/result/error/study-card cleared. -/
def handleCloseRehearsal (st : AppState) : AppState :=
  { st with
      audio := cleanupAudioAndSession st.audio,
      status := ConversationStatus.idle,
      scenario := none,
      transcript := [],
      result := none,
      errorMsg := none,
      studyCardHint := none }

/-- Observable steps `handleEndConversation` performs, in program order. -/
inductive TeardownAction where
  | setStatus (s : ConversationStatus)
  | cleanupAudio
  | summarizeCall
  | closeRehearsal
deriving DecidableEq, Repr

/-- Handler `handleEndConversation`, with the outcome of the (asynchronous)
`summarizeConversation` network call passed in as an `Except` parameter.  The
returned action list records, in program order, the status writes, the
unconditional `cleanupAudioAndSession()`, the short-circuit through
`handleCloseRehearsal`, and whether the summarization call was issued.  All
branches are total: teardown never throws even if resources are already
released. -/
def handleEndConversation (st : AppState)
    (outcome : Except String ConversationResult) :
    AppState × List TeardownAction :=
  if st.status = ConversationStatus.summarizing then (st, [])
  else
    let st1 : AppState :=
      { st with
          status := ConversationStatus.summarizing,
          audio := cleanupAudioAndSession st.audio }
    if st.scenario = none ∨ st.transcript = [] then
      (handleCloseRehearsal st1,
        [TeardownAction.setStatus ConversationStatus.summarizing,
          TeardownAction.cleanupAudio, TeardownAction.closeRehearsal])
    else
      match outcome with
      | Except.ok r =>
          ({ st1 with
              result := some r,
              status := ConversationStatus.pausedForFeedback },
            [TeardownAction.setStatus ConversationStatus.summarizing,
              TeardownAction.cleanupAudio, TeardownAction.summarizeCall,
              TeardownAction.setStatus ConversationStatus.pausedForFeedback])
      | Except.error _ =>
          ({ st1 with
              errorMsg := some "Failed to get feedback on the conversation.",
              status := ConversationStatus.error },
            [TeardownAction.setStatus ConversationStatus.summarizing,
              TeardownAction.cleanupAudio, TeardownAction.summarizeCall,
              TeardownAction.setStatus ConversationStatus.error])

/-! ### Teardown precedes summarization (C6) and re-entry is a no-op (C10) -/

/-- C6: every entry into Summarizing through `handleEndConversation` first
sets the status and runs the unconditional audio/session teardown — before
any summarization call, whatever the call's outcome; the summarization call
is issued exactly when a scenario exists and the transcript is non-empty; and
otherwise the handler short-circuits, without throwing, to the
Idle-equivalent cleanup of `handleCloseRehearsal`. -/
theorem end_conversation_teardown_order (st : AppState)
    (outcome : Except String ConversationResult)
    (h : st.status ≠ ConversationStatus.summarizing) :
    ((handleEndConversation st outcome).2.take 2
        = [TeardownAction.setStatus ConversationStatus.summarizing,
            TeardownAction.cleanupAudio]) ∧
      (∀ i : ℕ, ((handleEndConversation st outcome).2)[i]?
          = some TeardownAction.summarizeCall → 2 ≤ i) ∧
      (TeardownAction.summarizeCall ∈ (handleEndConversation st outcome).2
        ↔ st.scenario ≠ none ∧ st.transcript ≠ []) ∧
      ((st.scenario = none ∨ st.transcript = []) →
        (handleEndConversation st outcome).1
          = handleCloseRehearsal
              { st with
                  status := ConversationStatus.summarizing,
                  audio := cleanupAudioAndSession st.audio } ∧
          (handleEndConversation st outcome).1.status = ConversationStatus.idle ∧
          (handleEndConversation st outcome).1.audio.audioSources = ∅) := by
  unfold handleEndConversation
  rw [if_neg h]
  by_cases hsc : st.scenario = none ∨ st.transcript = []
  · rw [if_pos hsc]
    refine ⟨rfl, ?_, ?_, ?_⟩
    · intro i hi
      match i with
      | 0 => simp at hi
      | 1 => simp at hi
      | 2 => simp at hi
      | n + 3 => simp at hi
    · constructor
      · intro hmem
        simp at hmem
      · intro ⟨h1, h2⟩
        rcases hsc with h | h
        · exact absurd h h1
        · exact absurd h h2
    · intro _
      exact ⟨rfl, rfl, rfl⟩
  · rw [if_neg hsc]
    push_neg at hsc
    cases outcome with
    | ok r =>
        refine ⟨rfl, ?_, ?_, fun hcontra => ?_⟩
        · intro i hi
          match i with
          | 0 => simp at hi
          | 1 => simp at hi
          | 2 => omega
          | 3 => simp at hi
          | n + 4 => simp at hi
        · simp [hsc.1, hsc.2]
        · rcases hcontra with h | h
          · exact absurd h hsc.1
          · exact absurd h hsc.2
    | error msg =>
        refine ⟨rfl, ?_, ?_, fun hcontra => ?_⟩
        · intro i hi
          match i with
          | 0 => simp at hi
          | 1 => simp at hi
          | 2 => omega
          | 3 => simp at hi
          | n + 4 => simp at hi
        · simp [hsc.1, hsc.2]
        · rcases hcontra with h | h
          · exact absurd h hsc.1
          · exact absurd h hsc.2

/-- A concrete scenario used by the lifecycle witnesses. -/
def exampleScenario : Scenario :=
  { locationName := "Eiffel Tower"
    locationType := "landmark"
    task := "Ask for directions"
    npcProfile :=
      { name := "Amelie"
        gender := Gender.female
        voice := "Kore"
        languages := { primary := "French", secondary := some "English" }
        fluencyPrimary := Level.high
        fluencySecondary := some Level.medium
        patience := Level.medium
        helpfulness := Level.high
        accent := Accent.loc
        quirk := "Hums while thinking." }
    sceneDescription := "A sunny square."
    conversationStarter := ConversationStarter.user
    openingLine := none }

/-- A concrete summarization result used by the lifecycle witnesses. -/
def exampleResult : ConversationResult :=
  { summary := "Task done."
    tips := ["Speak slower."]
    taskComplete := true
    suggestedContinuation := none
    suggestedContinuationExplanation := none }

/-- An Active-state snapshot with a scenario and a non-empty transcript. -/
def exampleActiveState : AppState :=
  { status := ConversationStatus.active
    scenario := some exampleScenario
    transcript := [⟨Speaker.user, "Bonjour", true, none⟩]
    result := none
    errorMsg := none
    studyCardHint := none
    audio := initialAudioState }

/-- C6 witness: ending the example Active conversation tears down first and
does issue the summarization call. -/
theorem end_conversation_teardown_order_witness :
    ((handleEndConversation exampleActiveState (Except.ok exampleResult)).2.take 2
        = [TeardownAction.setStatus ConversationStatus.summarizing,
            TeardownAction.cleanupAudio]) ∧
      TeardownAction.summarizeCall
        ∈ (handleEndConversation exampleActiveState (Except.ok exampleResult)).2 := by
  have h := end_conversation_teardown_order exampleActiveState (Except.ok exampleResult)
    (by simp [exampleActiveState])
  exact ⟨h.1, (h.2.2.1).mpr ⟨by simp [exampleActiveState], by simp [exampleActiveState]⟩⟩

/-- C10: calling `handleEndConversation` while the status is already
Summarizing returns immediately: the state (status, scenario, transcript,
result, audio/session resources) is unchanged and no action — in particular
no summarization call — is performed. -/
theorem end_conversation_noop_when_summarizing (st : AppState)
    (outcome : Except String ConversationResult)
    (h : st.status = ConversationStatus.summarizing) :
    handleEndConversation st outcome = (st, []) := by
  unfold handleEndConversation
  rw [if_pos h]

/-- C10 witness: re-entry on a concrete Summarizing-state snapshot. -/
theorem end_conversation_noop_when_summarizing_witness :
    handleEndConversation { exampleActiveState with status := ConversationStatus.summarizing }
        (Except.ok exampleResult)
      = ({ exampleActiveState with status := ConversationStatus.summarizing }, []) :=
  end_conversation_noop_when_summarizing _ _ rfl

/-! ## Audio codec (src/types.ts `createBlob`/`encode`, main component
`decode`/`decodeAudioData`)

`createBlob` converts each float sample with a plain JS `Int16Array` store,
`int16[i] = data[i] * 32768`: ToIntegerOrInfinity truncation toward zero
followed by wrapping modulo 2^16 into [-32768, 32768).  The resulting buffer
is viewed byte-wise (little-endian) and base64-encoded (`btoa` over the
binary string), paired with the fixed MIME descriptor.  `decodeAudioData`
views the bytes as an `Int16Array`, de-interleaves by channel and rescales by
`/ 32768.0`. -/

/-- JS ToIntegerOrInfinity on a finite value: truncation toward zero. -/
def truncQ (x : ℚ) : ℤ := if 0 ≤ x then ⌊x⌋ else ⌈x⌉

/-- Wrap an integer modulo 2^16 into the signed 16-bit range [-32768, 32768). -/
def toInt16 (n : ℤ) : ℤ := (n + 32768) % 65536 - 32768

/-- The JS `Int16Array` element store applied to a float value. -/
def jsToInt16 (x : ℚ) : ℤ := toInt16 (truncQ x)

/-- The `Int16Array` built by `createBlob`'s loop: `int16[i] = data[i] * 32768`. -/
def createBlobInt16 (data : List ℚ) : List ℤ :=
  data.map fun x => jsToInt16 (x * 32768)

/-- The view `new Uint8Array(int16.buffer)`: each 16-bit element contributes its low
byte then its high byte (little-endian platform layout). -/
def int16LEBytes : List ℤ → List ℕ
  | [] => []
  | v :: rest =>
      (v % 65536).toNat % 256 :: (v % 65536).toNat / 256 :: int16LEBytes rest

/-- The base64 alphabet used by `btoa`. -/
def base64Chars : List Char :=
  "ABCDEFGHIJKLMNOPQRSTUVWXYZabcdefghijklmnopqrstuvwxyz0123456789+/".toList

def b64Char (n : ℕ) : Char := base64Chars.getD n 'A'

/-- Encoder `btoa` over the byte string: standard base64 with `=` padding. -/
def base64Encode : List ℕ → String
  | [] => ""
  | [b1] =>
      String.mk [b64Char (b1 / 4), b64Char (b1 % 4 * 16), '=', '=']
  | [b1, b2] =>
      String.mk [b64Char (b1 / 4), b64Char (b1 % 4 * 16 + b2 / 16),
        b64Char (b2 % 16 * 4), '=']
  | b1 :: b2 :: b3 :: rest =>
      String.mk [b64Char (b1 / 4), b64Char (b1 % 4 * 16 + b2 / 16),
        b64Char (b2 % 16 * 4 + b3 / 64), b64Char (b3 % 64)]
        ++ base64Encode rest

/-- The `Blob` value `createBlob` returns: base64 payload plus MIME type. -/
structure GenAiBlob where
  data : String
  mimeType : String
deriving DecidableEq, Repr

/-- Function `createBlob` from src/types.ts. -/
def createBlob (data : List ℚ) : GenAiBlob :=
  { data := base64Encode (int16LEBytes (createBlobInt16 data)),
    mimeType := "audio/pcm;rate=16000" }

/-- The encoder as the specification words it (for the refinement comparison
of C7): quantization by `round(sample * 32768)`, then the same 16-bit
representation, little-endian packing and base64 encoding. -/
def createBlobSpecRounded (data : List ℚ) : GenAiBlob :=
  { data := base64Encode (int16LEBytes (data.map fun x => toInt16 (round (x * 32768)))),
    mimeType := "audio/pcm;rate=16000" }

/-- The view `new Int16Array(data.buffer)`: reinterpret the byte list as signed 16-bit
little-endian values; fails (throws in JS) on odd-length buffers. -/
def bytesToInt16 : List ℕ → Option (List ℤ)
  | [] => some []
  | [_] => none
  | lo :: hi :: rest =>
      (bytesToInt16 rest).map fun vs => toInt16 ((lo : ℤ) + 256 * (hi : ℤ)) :: vs

/-- The channel extraction loop of `decodeAudioData`:
`channelData[i] = dataInt16[i * numChannels + channel] / 32768.0`. -/
def deinterleave (ints : List ℤ) (numChannels : ℕ) : List (List ℚ) :=
  (List.range numChannels).map fun channel =>
    (List.range (ints.length / numChannels)).map fun i =>
      ((ints.getD (i * numChannels + channel) 0 : ℤ) : ℚ) / 32768

/-- Function `decodeAudioData` (without the Web Audio buffer object): bytes to
per-channel float sample lists. -/
def decodeAudioDataModel (data : List ℕ) (numChannels : ℕ) :
    Option (List (List ℚ)) :=
  (bytesToInt16 data).map fun ints => deinterleave ints numChannels

/-! ### Codec lemmas -/

theorem toInt16_eq_self {n : ℤ} (h1 : -32768 ≤ n) (h2 : n < 32768) :
    toInt16 n = n := by
  unfold toInt16
  rw [Int.emod_eq_of_lt (by omega) (by omega)]
  omega

theorem toInt16_range (n : ℤ) : -32768 ≤ toInt16 n ∧ toInt16 n < 32768 := by
  unfold toInt16
  have h1 := Int.emod_nonneg (n + 32768) (by norm_num : (65536 : ℤ) ≠ 0)
  have h2 := Int.emod_lt_of_pos (n + 32768) (by norm_num : (0 : ℤ) < 65536)
  omega

theorem truncQ_bounds {y : ℚ} (h1 : -32768 ≤ y) (h2 : y < 32768) :
    -32768 ≤ truncQ y ∧ truncQ y < 32768 := by
  unfold truncQ
  by_cases h : 0 ≤ y
  · rw [if_pos h]
    refine ⟨?_, Int.floor_lt.mpr (by exact_mod_cast h2)⟩
    have h0 : (0 : ℤ) ≤ ⌊y⌋ := Int.le_floor.mpr (by exact_mod_cast h)
    omega
  · rw [if_neg h]
    push_neg at h
    refine ⟨?_, ?_⟩
    · exact_mod_cast (le_trans h1 (Int.le_ceil y))
    · have h0 : ⌈y⌉ ≤ 0 := Int.ceil_le.mpr (by exact_mod_cast h.le)
      omega

/-- C7 counterexample: at sample 1/10 the source's `Int16Array` store
truncates 3276.8 to 3276 while the claimed `round(sample * 32768)` gives
3277, so the produced blobs differ. -/
theorem createBlob_not_rounded :
    createBlob [(1 : ℚ) / 10] ≠ createBlobSpecRounded [(1 : ℚ) / 10] := by
  have harg : ((1 : ℚ) / 10 * 32768) = 16384 / 5 := by norm_num
  have ht : truncQ ((1 : ℚ) / 10 * 32768) = 3276 := by
    unfold truncQ
    rw [if_pos (by rw [harg]; norm_num), harg]
    exact Int.floor_eq_iff.mpr (by norm_num)
  have hr : round ((1 : ℚ) / 10 * 32768) = 3277 := by
    rw [round_eq, harg]
    exact Int.floor_eq_iff.mpr (by norm_num)
  simp only [createBlob, createBlobSpecRounded, createBlobInt16, List.map_cons,
    List.map_nil, jsToInt16, ht, hr]
  decide

/-- C7 (amended): `createBlob` quantizes each sample by truncating
`sample * 32768` toward zero (wrapping modulo 2^16 — a no-op for samples in
[-1, 1)), packs the 16-bit values little-endian, base64-encodes them, and
pairs them with the fixed MIME descriptor `audio/pcm;rate=16000`. -/
theorem createBlob_trunc_encoding (samples : List ℚ)
    (h : ∀ x ∈ samples, -1 ≤ x ∧ x < 1) :
    createBlob samples
      = { data := base64Encode (int16LEBytes (samples.map fun x => truncQ (x * 32768))),
          mimeType := "audio/pcm;rate=16000" } := by
  have hlist : createBlobInt16 samples = samples.map fun x => truncQ (x * 32768) := by
    unfold createBlobInt16
    apply List.map_congr_left
    intro x hx
    rcases h x hx with ⟨hl, hr⟩
    have hb := truncQ_bounds (y := x * 32768) (by linarith) (by linarith)
    unfold jsToInt16
    exact toInt16_eq_self hb.1 hb.2
  unfold createBlob
  rw [hlist]

/-- C7 witness: the sample 1/2 encodes to the base64 payload "AEA=" with the
fixed MIME type. -/
theorem createBlob_trunc_encoding_witness :
    createBlob [(1 : ℚ) / 2]
      = { data := "AEA=", mimeType := "audio/pcm;rate=16000" } := by
  have h := createBlob_trunc_encoding [(1 : ℚ) / 2]
    (by intro x hx; simp only [List.mem_singleton] at hx; subst hx; norm_num)
  rw [h]
  have ht : truncQ ((1 : ℚ) / 2 * 32768) = 16384 := by
    unfold truncQ
    rw [if_pos (by norm_num)]
    rw [show ((1 : ℚ) / 2 * 32768) = ((16384 : ℤ) : ℚ) by norm_num]
    exact Int.floor_intCast _
  simp only [List.map_cons, List.map_nil, ht]
  decide

/-! ### Decode/encode round trip (C8) -/

theorem bytesToInt16_range :
    ∀ (bytes : List ℕ) (ints : List ℤ), bytesToInt16 bytes = some ints →
      ∀ v ∈ ints, -32768 ≤ v ∧ v < 32768 := by
  intro bytes
  induction bytes using bytesToInt16.induct with
  | case1 =>
      intro ints hdec v hv
      simp only [bytesToInt16, Option.some.injEq] at hdec
      subst hdec
      simp at hv
  | case2 b =>
      intro ints hdec
      simp [bytesToInt16] at hdec
  | case3 lo hi rest ih =>
      intro ints hdec v hv
      simp only [bytesToInt16] at hdec
      cases hrest : bytesToInt16 rest with
      | none => rw [hrest] at hdec; simp at hdec
      | some vs =>
          rw [hrest] at hdec
          simp only [Option.map_some', Option.some.injEq] at hdec
          rw [← hdec] at hv
          rcases List.mem_cons.mp hv with h | hv'
          · rw [h]
            exact toInt16_range _
          · exact ih vs hrest v hv'

theorem jsToInt16_div_mul_roundtrip {v : ℤ} (h1 : -32768 ≤ v) (h2 : v < 32768) :
    jsToInt16 ((v : ℚ) / 32768 * 32768) = v := by
  have hexp : ((v : ℚ) / 32768 * 32768) = (v : ℚ) := by
    field_simp
  rw [hexp]
  unfold jsToInt16
  have ht : truncQ ((v : ℚ)) = v := by
    unfold truncQ
    by_cases h : (0 : ℚ) ≤ (v : ℚ)
    · rw [if_pos h, Int.floor_intCast]
    · rw [if_neg h, Int.ceil_intCast]
  rw [ht]
  exact toInt16_eq_self h1 h2

theorem map_range_getD (f : ℤ → ℚ) :
    ∀ l : List ℤ, (List.range l.length).map (fun i => f (l.getD i 0)) = l.map f := by
  intro l
  induction l with
  | nil => simp
  | cons a t ih =>
      rw [List.length_cons, List.range_succ_eq_map, List.map_cons, List.map_map]
      refine congrArg₂ List.cons rfl ?_
      rw [← ih]
      apply List.map_congr_left
      intro i _
      simp [Function.comp, List.getD_cons_succ]

theorem deinterleave_mono (ints : List ℤ) :
    deinterleave ints 1 = [ints.map fun v : ℤ => (v : ℚ) / 32768] := by
  unfold deinterleave
  have hr1 : List.range 1 = [0] := rfl
  rw [hr1, List.map_cons, List.map_nil, Nat.div_one]
  refine congrArg₂ List.cons ?_ rfl
  rw [← map_range_getD (fun v => (v : ℚ) / 32768) ints]
  apply List.map_congr_left
  intro i _
  simp

/-- C8: for every byte buffer that the `Int16Array` view accepts, decoding to
floats per `decodeAudioData` (mono, `/ 32768.0`) and re-quantizing per
`createBlob` (`* 32768` with the 16-bit store) reproduces the original 16-bit
sample values exactly — in particular within quantization error 1/32768. -/
theorem decode_encode_roundtrip (bytes : List ℕ) (ints : List ℤ)
    (hdec : bytesToInt16 bytes = some ints) :
    decodeAudioDataModel bytes 1 = some [ints.map fun v : ℤ => (v : ℚ) / 32768] ∧
      createBlobInt16 (ints.map fun v : ℤ => (v : ℚ) / 32768) = ints ∧
      ∀ v ∈ ints,
        |((jsToInt16 ((v : ℚ) / 32768 * 32768) : ℤ) : ℚ) / 32768 - (v : ℚ) / 32768|
          ≤ 1 / 32768 := by
  have hrange := bytesToInt16_range bytes ints hdec
  refine ⟨?_, ?_, ?_⟩
  · unfold decodeAudioDataModel
    rw [hdec]
    simp only [Option.map_some', Option.some.injEq]
    exact deinterleave_mono ints
  · unfold createBlobInt16
    rw [List.map_map]
    have hpt : ∀ v ∈ ints,
        (jsToInt16 ∘ fun v : ℤ => (v : ℚ) / 32768 * 32768) v = id v := by
      intro v hv
      simp only [Function.comp, id]
      exact jsToInt16_div_mul_roundtrip (hrange v hv).1 (hrange v hv).2
    calc ints.map ((fun x => jsToInt16 (x * 32768)) ∘ fun v : ℤ => (v : ℚ) / 32768)
        = ints.map id := List.map_congr_left hpt
      _ = ints := List.map_id ints
  · intro v hv
    rw [jsToInt16_div_mul_roundtrip (hrange v hv).1 (hrange v hv).2]
    rw [sub_self, abs_zero]
    norm_num

/-- C8 witness: the little-endian byte pair (0, 64) decodes to the sample
16384 and re-encodes to 16384. -/
theorem decode_encode_roundtrip_witness :
    bytesToInt16 [0, 64] = some [(16384 : ℤ)] ∧
      createBlobInt16 ([(16384 : ℤ)].map fun v : ℤ => (v : ℚ) / 32768) = [(16384 : ℤ)] := by
  have hdec : bytesToInt16 [0, 64] = some [(16384 : ℤ)] := by decide
  exact ⟨hdec, (decode_encode_roundtrip [0, 64] [(16384 : ℤ)] hdec).2.1⟩

end Rehearsal
